import Mathlib

/-
Shallow embedding of the flight-aggregation core of `src/main.py`
(lahacks2023-project): the `/api/flights` endpoint `get_flights`, its inner
`fetchSearch` and `loop` closures, `get_flight_details`, `validate_iata`,
and the constants `MAX_WAIT`, `MIN_WAIT`, `PAGE_SIZE`.

The repository modules `httpcache`, `flights` (remove_invalid_flights,
calculate_layover_scores) and `layovers` (set_popularity_for_flights) are
not part of the available source; they are modelled from the spec and each
such definition's doc comment says so.

Machine integers are modelled as `Int`/`Nat` (Python integers are unbounded,
so no wraparound is involved).  JSON serialisation (`.json()`) followed by
`parse_raw` is modelled as the identity on the structured payload.  The
upstream provider is modelled as a deterministic oracle; `None` from the
oracle stands for a call that raises (non-success HTTP status or malformed
payload, i.e. the spec's ProviderError).  Every run also records a trace of
cache and provider effects so that "no provider call happened" and
"`set` was invoked" are statable.
-/

/-! ## Constants (src/main.py lines 41-42, 246) -/

def MAX_WAIT : Int := 5000

def MIN_WAIT : Int := 500

def PAGE_SIZE : Int := 5

/-! ## Data model -/

/-- One flown segment inside a leg, bounded by arrival/departure times at an
airport (spec §3 Stop).  Times are modelled as integers. -/
structure FStop where
  airport : String
  arrive : Int
  depart : Int
deriving DecidableEq, Repr

/-- One directional portion of an itinerary; the stop list may be absent in
the raw payload (spec §3 Leg, §9 dynamic/optional fields). -/
structure Leg where
  stops : Option (List FStop)
deriving DecidableEq, Repr

/-- An itinerary summary from the search payload: id, optional legs and the
derived layover score (`layover_hours` in the source, set by
`calculate_layover_scores`). -/
structure Flight where
  id : String
  legs : Option (List Leg)
  layover_hours : Option Int
deriving DecidableEq, Repr

/-- The provider's search payload (`FlightApiResponse` in models):
a status flag and an optional list of itinerary summaries. -/
structure FlightApiResponse where
  status : Bool
  data : Option (List Flight)
deriving DecidableEq, Repr

/-- The provider's detail payload (`FlightDetailResponse` in models):
a status flag plus the fare/leg body, modelled opaquely. -/
structure FlightDetailResponse where
  status : Bool
  body : String
deriving DecidableEq, Repr

/-! ## flights.py (not in src; modelled from the spec) -/

/-- Modelled from the spec: §4.3 Validity Filter — drop any summary whose
leg list is absent, and any summary where some leg's stop list is absent or
empty; the relative order of survivors is preserved (`remove_invalid_flights`
from the missing module `flights`). -/
def remove_invalid_flights (flights : List Flight) : List Flight :=
  flights.filter fun f =>
    match f.legs with
    | none => false
    | some legs => legs.all fun leg =>
        match leg.stops with
        | none => false
        | some stops => !stops.isEmpty

/-- Cumulative layover time inside one leg: the sum of the gaps between
consecutive stops. -/
def legLayovers : List FStop → Int
  | [] => 0
  | [_] => 0
  | s1 :: s2 :: rest => (s2.depart - s1.arrive) + legLayovers (s2 :: rest)

/-- The scalar layover score of one summary: cumulative layover duration
across its legs. -/
def flightLayoverScore (f : Flight) : Int :=
  ((f.legs.getD []).map fun leg => legLayovers (leg.stops.getD [])).sum

/-- Modelled from the spec: §4.4 Layover Scorer — a single scalar per
surviving summary, from the cumulative layover durations across its legs
(`calculate_layover_scores` from the missing module `flights`).  Scores are
modelled as integers; only their linear order matters to the claims. -/
def calculate_layover_scores (flights : List Flight) : List Flight :=
  flights.map fun f => { f with layover_hours := some (flightLayoverScore f) }

/-- The sort key of `data.data.sort(key=lambda flight: flight.layover_hours)`
(src/main.py lines 279-283). -/
def sortKey (f : Flight) : Int := f.layover_hours.getD 0

/-! ## Python `list.sort(key=..., reverse=True)`

CPython's sort is a stable sort; with `reverse=True` it orders by key
descending while equal-key elements keep their original relative order.
`insertDescBy` places an element before the first position whose key is
not larger, which is exactly that semantics. -/

def insertDescBy {α : Type} (key : α → Int) (a : α) : List α → List α
  | [] => [a]
  | b :: l => if key a < key b then b :: insertDescBy key a l else a :: b :: l

def sortDescBy {α : Type} (key : α → Int) : List α → List α
  | [] => []
  | a :: l => insertDescBy key a (sortDescBy key l)

/-! ## Python slicing (src/main.py line 309: `search.data[start:end]`) -/

/-- Normalise a Python slice endpoint for a sequence of length `len`
(step 1): negative indices count from the end and are clamped at 0,
non-negative ones are clamped at `len`. -/
def normIdx (len : Nat) (i : Int) : Nat :=
  if i < 0 then (i + len).toNat else min i.toNat len

/-- Python `l[start:stop]` with implicit step 1. -/
def pySlice {α : Type} (l : List α) (start stop : Int) : List α :=
  (l.drop (normIdx l.length start)).take (normIdx l.length stop - normIdx l.length start)

/-- The pagination of src/main.py lines 307-309:
`start = (page-1)*PAGE_SIZE; end = start+PAGE_SIZE; data[start:end]`. -/
def pageSlice (l : List Flight) (page : Int) : List Flight :=
  pySlice l ((page - 1) * PAGE_SIZE) ((page - 1) * PAGE_SIZE + PAGE_SIZE)

/-! ## Python string comparison

The date precondition at src/main.py line 250 is `date > return_date` on the
`YYYY-MM-DD` strings.  Python compares strings lexicographically by code
point, with a proper prefix comparing less; `pyStrLt` is that order. -/

def charListLt : List Char → List Char → Bool
  | [], [] => false
  | [], _ :: _ => true
  | _ :: _, [] => false
  | a :: as, b :: bs => if a < b then true else if b < a then false else charListLt as bs

def pyStrLt (a b : String) : Bool := charListLt a.data b.data

/-! ## Cache store (module `httpcache`, not in src; modelled from the spec) -/

/-- Structured cache keys.  The source keys the cache with dicts
(lines 287-292 and 316-322); the spec (§4.1) requires the fingerprint to be a
stable encoding of the key fields, so semantically equal keys index the same
entry — modelled by using the structured fields themselves as the key. -/
inductive CacheKey
  | search (origin dest date return_date : String)
  | detail (itineraryId origin dest date return_date : String)
deriving DecidableEq, Repr

/-- A cached serialized payload (serialisation modelled as identity). -/
inductive Payload
  | searchP (r : FlightApiResponse)
  | detailP (d : FlightDetailResponse)
deriving DecidableEq, Repr

/-- The status flag carried by a cached payload. -/
def payloadStatus : Payload → Bool
  | .searchP r => r.status
  | .detailP d => d.status

abbrev Cache : Type := List (CacheKey × Payload)

namespace httpcache

/-- Modelled from the spec: §4.1 Cache Store `get(fingerprint) -> payload | absent`
(the module `httpcache` is not in src). -/
def get (c : Cache) (k : CacheKey) : Option Payload :=
  match c with
  | [] => none
  | (k2, v) :: rest => if k2 = k then some v else get rest k

/-- Modelled from the spec: §4.1 Cache Store `set(fingerprint, payload)`;
the newest write for a key is the one retrieved (last-writer-wins, §5). -/
def set (c : Cache) (k : CacheKey) (v : Payload) : Cache :=
  (k, v) :: c

end httpcache

/-! ## Request parameters, provider oracle, effects -/

/-- The query parameters of `GET /api/flights` (src/main.py lines 233-242). -/
structure Req where
  origin : String
  dest : String
  date : String
  return_date : String
  num_adults : Option Int
  wait_time : Option Int
  page : Int
deriving DecidableEq, Repr

/-- The parameters forwarded to the provider's `searchFlights` call
(src/main.py lines 257-269). -/
structure SearchParams where
  origin : String
  dest : String
  date : String
  return_date : String
  adults : Option Int
  waitTime : Int
deriving DecidableEq, Repr

/-- The parameters forwarded to the provider's `getFlightDetails` call
(src/main.py lines 213-225; the two synthetic legs are determined by
origin/dest/date/return_date). -/
structure DetailParams where
  itineraryId : String
  origin : String
  dest : String
  date : String
  return_date : String
  adults : Option Int
deriving DecidableEq, Repr

/-- The upstream provider as a deterministic oracle.  `none` models a call
that raises (non-success HTTP status or malformed payload — the spec's
ProviderError / a pydantic parse failure). -/
structure Provider where
  search : SearchParams → Option FlightApiResponse
  detail : DetailParams → Option FlightDetailResponse

/-- Observable cache/provider effects of one run, in program order. -/
inductive Effect
  | cacheGet (k : CacheKey)
  | cacheSet (k : CacheKey) (v : Payload)
  | provSearch (p : SearchParams)
  | provDetail (p : DetailParams)
deriving DecidableEq, Repr

/-- Errors surfaced by a run: an `HTTPException(status_code, detail)` or an
unhandled exception (FastAPI's 500). -/
inductive HErr
  | http (code : Int) (detail : String)
  | internal
deriving DecidableEq, Repr

/-- The outcome of one request: result, final cache, effect trace. -/
structure RunOut (α : Type) where
  result : Except HErr α
  cache : Cache
  trace : List Effect

/-- The `waitTime` value built at src/main.py lines 262-264:
`min(wait_time, MAX_WAIT) if wait_time is not None else MIN_WAIT`. -/
def forwardedWaitTime (wait_time : Option Int) : Int :=
  match wait_time with
  | some w => min w MAX_WAIT
  | none => MIN_WAIT

def searchParamsOf (req : Req) : SearchParams :=
  { origin := req.origin, dest := req.dest, date := req.date,
    return_date := req.return_date, adults := req.num_adults,
    waitTime := forwardedWaitTime req.wait_time }

/-- The search cache key of src/main.py lines 287-292. -/
def search_cache_key (req : Req) : CacheKey :=
  .search req.origin req.dest req.date req.return_date

/-- The per-itinerary cache key of src/main.py lines 316-322. -/
def detailCacheKey (req : Req) (itinId : String) : CacheKey :=
  .detail itinId req.origin req.dest req.date req.return_date

def detailParamsOf (req : Req) (itinId : String) : DetailParams :=
  { itineraryId := itinId, origin := req.origin, dest := req.dest,
    date := req.date, return_date := req.return_date, adults := req.num_adults }

/-- `validate_iata` (src/main.py lines 64-75): both codes must have length 3
and be present in the airport directory, else HTTP 400.  The directory
(`get_airport_by_iata` of the `airports` module) is a parameter; the `None`
arguments branch cannot trigger from `get_flights`, whose query parameters
are required strings. -/
def validate_iata (airports : String → Bool) (origin dest : String) : Except HErr Unit :=
  if origin.length ≠ 3 ∨ dest.length ≠ 3 then
    .error (.http 400 "Invalid IATA code")
  else if airports origin = false then
    .error (.http 400 "Invalid origin airport")
  else if airports dest = false then
    .error (.http 400 "Invalid destination airport")
  else
    .ok ()

/-- `get_flight_details` (src/main.py lines 200-229): re-validates the codes,
then issues the provider detail call; a malformed payload makes `parse_raw`
raise, modelled as `.error .internal`.  Returns the effects it performed. -/
def get_flight_details (airports : String → Bool) (prov : Provider)
    (p : DetailParams) : Except HErr FlightDetailResponse × List Effect :=
  match validate_iata airports p.origin p.dest with
  | .error e => (.error e, [])
  | .ok _ =>
    match prov.detail p with
    | none => (.error .internal, [.provDetail p])
    | some d => (.ok d, [.provDetail p])

/-- The inner `fetchSearch` closure (src/main.py lines 253-285): provider
search call, 404 when the payload has no data, then filter, score, and the
stable descending sort by layover score; the processed response is what gets
serialized, cached and paged. -/
def fetchSearch (prov : Provider) (req : Req) :
    Except HErr FlightApiResponse × List Effect :=
  match prov.search (searchParamsOf req) with
  | none => (.error .internal, [.provSearch (searchParamsOf req)])
  | some resp =>
    match resp.data with
    | none => (.error (.http 404 "No flights found"), [.provSearch (searchParamsOf req)])
    | some flights =>
      let flights := remove_invalid_flights flights
      let flights := calculate_layover_scores flights
      let flights := sortDescBy sortKey flights
      (.ok { resp with data := some flights }, [.provSearch (searchParamsOf req)])

/-- State threaded through the concurrent detail fan-out: cache, the
`details` array (`[None] * len(search.data)`, line 311) and the trace. -/
structure LoopState where
  cache : Cache
  details : List (Option FlightDetailResponse)
  trace : List Effect

/-- The inner `async def loop(i)` closure (src/main.py lines 313-340): probe
the cache under the itinerary's detail key; on hit deserialize into
`details[i]`; on miss call `get_flight_details`, cache the response only when
its status flag is true, and store it at index `i`.  An exception inside the
body (provider error / failed parse, or the `assert`) is returned as
`some err` — under `asyncio.gather`'s default `return_exceptions=False` it
propagates and aborts the whole request. -/
def loop (airports : String → Bool) (prov : Provider) (req : Req)
    (pageData : List Flight) (st : LoopState) (i : Nat) : Option HErr × LoopState :=
  match pageData[i]? with
  | none => (some .internal, st)
  | some f =>
    match httpcache.get st.cache (detailCacheKey req f.id) with
    | some (.detailP d) =>
      (none, { st with details := st.details.set i (some d),
                       trace := st.trace ++ [.cacheGet (detailCacheKey req f.id)] })
    | some (.searchP _) =>
      (some .internal, { st with trace := st.trace ++ [.cacheGet (detailCacheKey req f.id)] })
    | none =>
      match get_flight_details airports prov (detailParamsOf req f.id) with
      | (.error e, eff) =>
        (some e, { st with trace := st.trace ++ [.cacheGet (detailCacheKey req f.id)] ++ eff })
      | (.ok d, eff) =>
        if d.status then
          (none, { cache := httpcache.set st.cache (detailCacheKey req f.id) (.detailP d),
                   details := st.details.set i (some d),
                   trace := st.trace ++ [.cacheGet (detailCacheKey req f.id)] ++ eff
                     ++ [.cacheSet (detailCacheKey req f.id) (.detailP d)] })
        else
          (none, { st with details := st.details.set i (some d),
                           trace := st.trace ++ [.cacheGet (detailCacheKey req f.id)] ++ eff })

/-- `asyncio.gather` over the page (src/main.py lines 342-343), parametrised
by the completion schedule: the per-item bodies run for every index in
`sched`; the first exception aborts the whole gather
(`return_exceptions=False` is the default). -/
def runLoops (airports : String → Bool) (prov : Provider) (req : Req)
    (pageData : List Flight) : List Nat → LoopState → Option HErr × LoopState
  | [], st => (none, st)
  | i :: rest, st =>
    match loop airports prov req pageData st i with
    | (some e, st2) => (some e, st2)
    | (none, st2) => runLoops airports prov req pageData rest st2

/-- Modelled from the spec: §4.6 Popularity Aggregator
(`set_popularity_for_flights` from the missing module `layovers`) is a
read-only pass that attaches a popularity count to each detail; it preserves
the list (length, order, fields modelled here), so on this model it is the
identity. -/
def set_popularity_for_flights (l : List FlightDetailResponse) : List FlightDetailResponse := l

/-- The tail of `get_flights` after the search response is available
(src/main.py lines 303-348): the defensive `data is None` check, the page
slice, the `details` array, the gathered fan-out, and the final filtering of
unset entries. -/
def afterSearch (airports : String → Bool) (prov : Provider) (cache1 : Cache)
    (req : Req) (sr : FlightApiResponse) (tr : List Effect) :
    RunOut (List FlightDetailResponse) :=
  match sr.data with
  | none => ⟨.error (.http 404 "No flights found"), cache1, tr⟩
  | some flights =>
    match runLoops airports prov req (pageSlice flights req.page)
        (List.range (pageSlice flights req.page).length)
        ⟨cache1, List.replicate (pageSlice flights req.page).length none, tr⟩ with
    | (some e, st) => ⟨.error e, st.cache, st.trace⟩
    | (none, st) =>
      ⟨.ok (set_popularity_for_flights (st.details.filterMap id)), st.cache, st.trace⟩

/-- `get_flights` (src/main.py lines 232-348): validate the IATA codes,
reject `date > return_date` with HTTP 400, probe the search cache; on miss
run `fetchSearch` and cache the processed response only when its status flag
is true; then page and fan out as in `afterSearch`. -/
def get_flights (airports : String → Bool) (prov : Provider) (cache0 : Cache)
    (req : Req) : RunOut (List FlightDetailResponse) :=
  match validate_iata airports req.origin req.dest with
  | .error e => ⟨.error e, cache0, []⟩
  | .ok _ =>
    if pyStrLt req.return_date req.date then
      ⟨.error (.http 400 "Invalid dates"), cache0, []⟩
    else
      match httpcache.get cache0 (search_cache_key req) with
      | some (.searchP sr) =>
        afterSearch airports prov cache0 req sr [.cacheGet (search_cache_key req)]
      | some (.detailP _) =>
        ⟨.error .internal, cache0, [.cacheGet (search_cache_key req)]⟩
      | none =>
        match fetchSearch prov req with
        | (.error e, eff) => ⟨.error e, cache0, .cacheGet (search_cache_key req) :: eff⟩
        | (.ok sr, eff) =>
          if sr.status then
            afterSearch airports prov
              (httpcache.set cache0 (search_cache_key req) (.searchP sr)) req sr
              (.cacheGet (search_cache_key req) :: eff
                ++ [.cacheSet (search_cache_key req) (.searchP sr)])
          else
            afterSearch airports prov cache0 req sr (.cacheGet (search_cache_key req) :: eff)

/-! ## Basic lemmas about the cache store -/

theorem httpcache_get_set_eq (c : Cache) (k : CacheKey) (v : Payload) :
    httpcache.get (httpcache.set c k v) k = some v := by
  simp [httpcache.get, httpcache.set]

theorem httpcache_get_set_ne (c : Cache) (k k2 : CacheKey) (v : Payload)
    (h : k ≠ k2) : httpcache.get (httpcache.set c k v) k2 = httpcache.get c k2 := by
  simp [httpcache.get, httpcache.set, h]

/-! ## Lemmas about the stable descending sort -/

theorem mem_insertDescBy {α : Type} (key : α → Int) (a x : α) (l : List α) :
    x ∈ insertDescBy key a l ↔ x = a ∨ x ∈ l := by
  induction l with
  | nil => simp [insertDescBy]
  | cons b l ih =>
    simp only [insertDescBy]
    split
    · simp only [List.mem_cons, ih]
      tauto
    · simp only [List.mem_cons]

theorem pairwise_insertDescBy {α : Type} (key : α → Int) (a : α) (l : List α)
    (h : l.Pairwise fun x y => key y ≤ key x) :
    (insertDescBy key a l).Pairwise fun x y => key y ≤ key x := by
  induction l with
  | nil => simp [insertDescBy]
  | cons b l ih =>
    rw [List.pairwise_cons] at h
    obtain ⟨hb, hl⟩ := h
    simp only [insertDescBy]
    split
    · rename_i hab
      rw [List.pairwise_cons]
      refine ⟨?_, ih hl⟩
      intro x hx
      rcases (mem_insertDescBy key a x l).mp hx with hxa | hxl
      · subst hxa; omega
      · exact hb x hxl
    · rename_i hab
      rw [List.pairwise_cons]
      refine ⟨?_, List.pairwise_cons.mpr ⟨hb, hl⟩⟩
      intro x hx
      rcases List.mem_cons.mp hx with hxb | hxl
      · subst hxb; omega
      · have := hb x hxl
        omega

theorem pairwise_sortDescBy {α : Type} (key : α → Int) (l : List α) :
    (sortDescBy key l).Pairwise fun x y => key y ≤ key x := by
  induction l with
  | nil => simp [sortDescBy]
  | cons a l ih => exact pairwise_insertDescBy key a _ ih

theorem filter_insertDescBy {α : Type} (key : α → Int) (a : α) (l : List α) (k : Int) :
    (insertDescBy key a l).filter (fun x => key x == k) =
      (a :: l).filter (fun x => key x == k) := by
  induction l with
  | nil => rfl
  | cons b l ih =>
    simp only [insertDescBy]
    split
    · rename_i hab
      by_cases hbk : key b = k
      · by_cases hak : key a = k
        · omega
        · simp [List.filter_cons, hbk, hak, ih]
      · simp only [List.filter_cons]
        by_cases hak : key a = k <;> simp [hbk, hak, ih, List.filter_cons]
    · rfl

theorem filter_sortDescBy {α : Type} (key : α → Int) (l : List α) (k : Int) :
    (sortDescBy key l).filter (fun x => key x == k) = l.filter (fun x => key x == k) := by
  induction l with
  | nil => rfl
  | cons a l ih =>
    simp only [sortDescBy]
    rw [filter_insertDescBy]
    simp only [List.filter_cons]
    by_cases hak : key a = k <;> simp [hak, ih]

/-! ## Lemmas about Python slicing -/

theorem pySlice_nonneg {α : Type} (l : List α) (s e : Int) (hs : 0 ≤ s) (hse : s ≤ e) :
    pySlice l s e = (l.drop s.toNat).take (e - s).toNat := by
  unfold pySlice normIdx
  rw [if_neg (by omega), if_neg (by omega)]
  by_cases hlen : l.length ≤ s.toNat
  · rw [List.drop_eq_nil_iff.mpr (by omega)]
    rw [List.drop_eq_nil_iff.mpr (by omega)]
    simp
  · have h1 : min s.toNat l.length = s.toNat := by omega
    rw [h1]
    have h2 : min e.toNat l.length - s.toNat = min (e - s).toNat (l.length - s.toNat) := by
      omega
    rw [h2]
    rw [← List.take_take, ← List.length_drop s.toNat l]
    rw [List.take_length]

/-! ## Effect-shape lemmas

The fan-out loops only ever read the cache, call the provider's detail
endpoint, and cache detail payloads whose status flag is true; only
`fetchSearch` emits a search call, always with `searchParamsOf req`. -/

/-- An effect that a fan-out loop may emit. -/
def benignEffect (e : Effect) : Prop :=
  (∃ k, e = Effect.cacheGet k) ∨ (∃ p, e = Effect.provDetail p) ∨
    ∃ k d, e = Effect.cacheSet k (Payload.detailP d) ∧ d.status = true

theorem get_flight_details_eff (A : String → Bool) (prov : Provider) (p : DetailParams) :
    (get_flight_details A prov p).2 = [] ∨
      (get_flight_details A prov p).2 = [Effect.provDetail p] := by
  unfold get_flight_details
  split
  · exact Or.inl rfl
  · split
    · exact Or.inr rfl
    · exact Or.inr rfl

theorem fetchSearch_eff (prov : Provider) (req : Req) :
    (fetchSearch prov req).2 = [Effect.provSearch (searchParamsOf req)] := by
  unfold fetchSearch
  split
  · rfl
  · split
    · rfl
    · rfl

theorem fetchSearch_ok (prov : Provider) (req : Req) (sr : FlightApiResponse)
    (eff : List Effect) (h : fetchSearch prov req = (.ok sr, eff)) :
    ∃ r fl, prov.search (searchParamsOf req) = some r ∧ r.data = some fl ∧
      sr = { status := r.status,
             data := some (sortDescBy sortKey (calculate_layover_scores
               (remove_invalid_flights fl))) } ∧
      eff = [Effect.provSearch (searchParamsOf req)] := by
  unfold fetchSearch at h
  split at h
  · simp at h
  · rename_i r hr
    split at h
    · simp at h
    · rename_i fl hfl
      simp only [Prod.mk.injEq] at h
      obtain ⟨h1, h2⟩ := h
      refine ⟨r, fl, hr, hfl, ?_, h2.symm⟩
      cases h1
      rfl

theorem loop_shape (A : String → Bool) (prov : Provider) (req : Req)
    (pageData : List Flight) (st : LoopState) (i : Nat) :
    (∃ tr, (loop A prov req pageData st i).2.trace = st.trace ++ tr ∧
      ∀ e ∈ tr, benignEffect e) ∧
    ((loop A prov req pageData st i).2.cache = st.cache ∨
      ∃ id d, d.status = true ∧
        (loop A prov req pageData st i).2.cache =
          httpcache.set st.cache (detailCacheKey req id) (Payload.detailP d)) := by
  unfold loop
  split
  · exact ⟨⟨[], by simp⟩, Or.inl rfl⟩
  · rename_i f hf
    split
    · refine ⟨⟨[Effect.cacheGet (detailCacheKey req f.id)], rfl, ?_⟩, Or.inl rfl⟩
      intro e he
      rw [List.mem_singleton] at he
      exact Or.inl ⟨_, he⟩
    · refine ⟨⟨[Effect.cacheGet (detailCacheKey req f.id)], rfl, ?_⟩, Or.inl rfl⟩
      intro e he
      rw [List.mem_singleton] at he
      exact Or.inl ⟨_, he⟩
    · split
      · rename_i e eff hgfd
        have heff : eff = [] ∨ eff = [Effect.provDetail (detailParamsOf req f.id)] := by
          have h0 := get_flight_details_eff A prov (detailParamsOf req f.id)
          rw [hgfd] at h0
          exact h0
        refine ⟨⟨[Effect.cacheGet (detailCacheKey req f.id)] ++ eff, by simp, ?_⟩, Or.inl rfl⟩
        intro x hx
        rcases List.mem_append.mp hx with hx | hx
        · rw [List.mem_singleton] at hx
          exact Or.inl ⟨_, hx⟩
        · rcases heff with heff | heff
          · rw [heff] at hx; simp at hx
          · rw [heff, List.mem_singleton] at hx
            exact Or.inr (Or.inl ⟨_, hx⟩)
      · rename_i d eff hgfd
        have heff : eff = [] ∨ eff = [Effect.provDetail (detailParamsOf req f.id)] := by
          have h0 := get_flight_details_eff A prov (detailParamsOf req f.id)
          rw [hgfd] at h0
          exact h0
        split
        · rename_i hd
          refine ⟨⟨[Effect.cacheGet (detailCacheKey req f.id)] ++ eff ++
              [Effect.cacheSet (detailCacheKey req f.id) (Payload.detailP d)], by simp, ?_⟩,
            Or.inr ⟨f.id, d, hd, rfl⟩⟩
          intro x hx
          rcases List.mem_append.mp hx with hx | hx
          · rcases List.mem_append.mp hx with hx | hx
            · rw [List.mem_singleton] at hx
              exact Or.inl ⟨_, hx⟩
            · rcases heff with heff | heff
              · rw [heff] at hx; simp at hx
              · rw [heff, List.mem_singleton] at hx
                exact Or.inr (Or.inl ⟨_, hx⟩)
          · rw [List.mem_singleton] at hx
            exact Or.inr (Or.inr ⟨_, d, hx, hd⟩)
        · refine ⟨⟨[Effect.cacheGet (detailCacheKey req f.id)] ++ eff, by simp, ?_⟩, Or.inl rfl⟩
          intro x hx
          rcases List.mem_append.mp hx with hx | hx
          · rw [List.mem_singleton] at hx
            exact Or.inl ⟨_, hx⟩
          · rcases heff with heff | heff
            · rw [heff] at hx; simp at hx
            · rw [heff, List.mem_singleton] at hx
              exact Or.inr (Or.inl ⟨_, hx⟩)

theorem detailCacheKey_ne_search (req : Req) (id o dn dt rt : String) :
    detailCacheKey req id ≠ CacheKey.search o dn dt rt := by
  simp [detailCacheKey]

theorem runLoops_shape (A : String → Bool) (prov : Provider) (req : Req)
    (pageData : List Flight) (S : List Nat) (st : LoopState) :
    (∃ tr, (runLoops A prov req pageData S st).2.trace = st.trace ++ tr ∧
      ∀ e ∈ tr, benignEffect e) ∧
    ∀ o dn dt rt, httpcache.get (runLoops A prov req pageData S st).2.cache
        (CacheKey.search o dn dt rt) = httpcache.get st.cache (CacheKey.search o dn dt rt) := by
  induction S generalizing st with
  | nil => exact ⟨⟨[], by simp [runLoops]⟩, fun o dn dt rt => rfl⟩
  | cons i rest ih =>
    rcases hloop : loop A prov req pageData st i with ⟨o, st2⟩
    have hs : (∃ tr, st2.trace = st.trace ++ tr ∧ ∀ e ∈ tr, benignEffect e) ∧
        (st2.cache = st.cache ∨ ∃ id d, d.status = true ∧
          st2.cache = httpcache.set st.cache (detailCacheKey req id) (Payload.detailP d)) := by
      have h0 := loop_shape A prov req pageData st i
      rw [hloop] at h0
      exact h0
    obtain ⟨⟨tr1, htr1, hbtr1⟩, hc1⟩ := hs
    have hcs : ∀ o dn dt rt, httpcache.get st2.cache (CacheKey.search o dn dt rt) =
        httpcache.get st.cache (CacheKey.search o dn dt rt) := by
      intro o dn dt rt
      rcases hc1 with hc1 | ⟨id, d, _, hc1⟩
      · rw [hc1]
      · rw [hc1, httpcache_get_set_ne _ _ _ _ (detailCacheKey_ne_search req id o dn dt rt)]
    cases o with
    | some e =>
      have hrun : runLoops A prov req pageData (i :: rest) st = (some e, st2) := by
        unfold runLoops
        rw [hloop]
      rw [hrun]
      exact ⟨⟨tr1, htr1, hbtr1⟩, hcs⟩
    | none =>
      have hrun : runLoops A prov req pageData (i :: rest) st =
          runLoops A prov req pageData rest st2 := by
        show (match loop A prov req pageData st i with
          | (some e, st2) => (some e, st2)
          | (none, st2) => runLoops A prov req pageData rest st2) =
            runLoops A prov req pageData rest st2
        rw [hloop]
      rw [hrun]
      obtain ⟨⟨tr2, htr2, hbtr2⟩, hcs2⟩ := ih st2
      refine ⟨⟨tr1 ++ tr2, by rw [htr2, htr1, List.append_assoc], ?_⟩, ?_⟩
      · intro e he
        rcases List.mem_append.mp he with he | he
        · exact hbtr1 e he
        · exact hbtr2 e he
      · intro o dn dt rt
        rw [hcs2, hcs]

theorem afterSearch_shape (A : String → Bool) (prov : Provider) (c : Cache)
    (req : Req) (sr : FlightApiResponse) (tr : List Effect) :
    (∃ tr2, (afterSearch A prov c req sr tr).trace = tr ++ tr2 ∧
      ∀ e ∈ tr2, benignEffect e) ∧
    ∀ o dn dt rt, httpcache.get (afterSearch A prov c req sr tr).cache
        (CacheKey.search o dn dt rt) = httpcache.get c (CacheKey.search o dn dt rt) := by
  unfold afterSearch
  split
  · exact ⟨⟨[], by simp⟩, fun o dn dt rt => rfl⟩
  · rename_i flights hdata
    split
    · rename_i e st hrl
      have h0 := runLoops_shape A prov req (pageSlice flights req.page)
        (List.range (pageSlice flights req.page).length)
        ⟨c, List.replicate (pageSlice flights req.page).length none, tr⟩
      rw [hrl] at h0
      exact h0
    · rename_i st hrl
      have h0 := runLoops_shape A prov req (pageSlice flights req.page)
        (List.range (pageSlice flights req.page).length)
        ⟨c, List.replicate (pageSlice flights req.page).length none, tr⟩
      rw [hrl] at h0
      exact h0

theorem benign_cacheSet {k : CacheKey} {v : Payload} (h : benignEffect (Effect.cacheSet k v)) :
    payloadStatus v = true := by
  rcases h with ⟨k2, hk⟩ | ⟨p2, hp⟩ | ⟨k2, d2, he, hd⟩
  · cases hk
  · cases hp
  · cases he
    simp [payloadStatus, hd]

theorem benign_not_provSearch {p : SearchParams} (h : benignEffect (Effect.provSearch p)) :
    False := by
  rcases h with ⟨k2, hk⟩ | ⟨p2, hp⟩ | ⟨k2, d2, he, _⟩
  · cases hk
  · cases hp
  · cases he

theorem get_flights_shape (A : String → Bool) (prov : Provider) (c0 : Cache) (req : Req) :
    (∀ k v, Effect.cacheSet k v ∈ (get_flights A prov c0 req).trace → payloadStatus v = true) ∧
    (∀ p, Effect.provSearch p ∈ (get_flights A prov c0 req).trace → p = searchParamsOf req) := by
  unfold get_flights
  split
  · exact ⟨fun k v h => absurd h (by simp), fun p h => absurd h (by simp)⟩
  · split
    · exact ⟨fun k v h => absurd h (by simp), fun p h => absurd h (by simp)⟩
    · split
      · rename_i sr hget
        obtain ⟨⟨tr2, htr, hb⟩, _⟩ :=
          afterSearch_shape A prov c0 req sr [.cacheGet (search_cache_key req)]
        constructor
        · intro k v hmem
          rw [htr] at hmem
          rcases List.mem_append.mp hmem with h | h
          · simp at h
          · exact benign_cacheSet (hb _ h)
        · intro p hmem
          rw [htr] at hmem
          rcases List.mem_append.mp hmem with h | h
          · simp at h
          · exact absurd (hb _ h) benign_not_provSearch
      · exact ⟨fun k v h => by simp at h, fun p h => by simp at h⟩
      · rename_i hget
        split
        · rename_i e eff hfs
          have heff : eff = [Effect.provSearch (searchParamsOf req)] := by
            have h0 := fetchSearch_eff prov req
            rw [hfs] at h0
            exact h0
          constructor
          · intro k v hmem
            rw [heff] at hmem
            simp at hmem
          · intro p hmem
            rw [heff] at hmem
            simp at hmem
            exact hmem
        · rename_i sr eff hfs
          have heff : eff = [Effect.provSearch (searchParamsOf req)] := by
            have h0 := fetchSearch_eff prov req
            rw [hfs] at h0
            exact h0
          split
          · rename_i hst
            obtain ⟨⟨tr2, htr, hb⟩, _⟩ :=
              afterSearch_shape A prov
                (httpcache.set c0 (search_cache_key req) (.searchP sr)) req sr
                (.cacheGet (search_cache_key req) :: eff
                  ++ [.cacheSet (search_cache_key req) (.searchP sr)])
            constructor
            · intro k v hmem
              rw [htr, heff] at hmem
              rcases List.mem_append.mp hmem with h | h
              · simp at h
                obtain ⟨-, hv⟩ := h
                rw [hv]
                simp [payloadStatus, hst]
              · exact benign_cacheSet (hb _ h)
            · intro p hmem
              rw [htr, heff] at hmem
              rcases List.mem_append.mp hmem with h | h
              · simp at h
                exact h
              · exact absurd (hb _ h) benign_not_provSearch
          · obtain ⟨⟨tr2, htr, hb⟩, _⟩ :=
              afterSearch_shape A prov c0 req sr
                (.cacheGet (search_cache_key req) :: eff)
            constructor
            · intro k v hmem
              rw [htr, heff] at hmem
              rcases List.mem_append.mp hmem with h | h
              · simp at h
              · exact benign_cacheSet (hb _ h)
            · intro p hmem
              rw [htr, heff] at hmem
              rcases List.mem_append.mp hmem with h | h
              · simp at h
                exact h
              · exact absurd (hb _ h) benign_not_provSearch

/-! ## Validation lemmas -/

theorem validate_iata_error_shape (A : String → Bool) (o d : String) (e : HErr)
    (h : validate_iata A o d = .error e) : ∃ m, e = HErr.http 400 m := by
  unfold validate_iata at h
  split at h
  · cases h
    exact ⟨_, rfl⟩
  · split at h
    · cases h
      exact ⟨_, rfl⟩
    · split at h
      · cases h
        exact ⟨_, rfl⟩
      · cases h

theorem validate_iata_err (A : String → Bool) (o d : String)
    (h : ¬(o.length = 3 ∧ d.length = 3 ∧ A o = true ∧ A d = true)) :
    ∃ m, validate_iata A o d = .error (.http 400 m) := by
  unfold validate_iata
  split
  · exact ⟨_, rfl⟩
  · split
    · exact ⟨_, rfl⟩
    · split
      · exact ⟨_, rfl⟩
      · rename_i h1 h2 h3
        push_neg at h1
        simp only [Bool.not_eq_false] at h2 h3
        exact absurd ⟨h1.1, h1.2, h2, h3⟩ h

/-! ## Claim C8 -/

/-- C8: a request whose origin or destination is not a 3-letter code present
in the airport directory, or whose date is strictly greater than
return_date, is rejected with HTTP 400, with an empty effect trace (so no
cache read and no provider call) and an unchanged cache. -/
theorem invalid_request_rejected_before_io (A : String → Bool) (prov : Provider)
    (c0 : Cache) (req : Req)
    (h : ¬(req.origin.length = 3 ∧ req.dest.length = 3 ∧
            A req.origin = true ∧ A req.dest = true) ∨
          pyStrLt req.return_date req.date = true) :
    (∃ m, (get_flights A prov c0 req).result = .error (.http 400 m)) ∧
    (get_flights A prov c0 req).trace = [] ∧
    (get_flights A prov c0 req).cache = c0 := by
  unfold get_flights
  split
  · rename_i e hv
    obtain ⟨m, hm⟩ := validate_iata_error_shape A req.origin req.dest e hv
    exact ⟨⟨m, by rw [hm]⟩, rfl, rfl⟩
  · rename_i val hv
    rcases h with h | h
    · exfalso
      obtain ⟨m, hm⟩ := validate_iata_err A req.origin req.dest h
      rw [hv] at hm
      cases hm
    · split
      · exact ⟨⟨"Invalid dates", rfl⟩, rfl, rfl⟩
      · rename_i hlt
        exact absurd h hlt

/-! ## Concrete scenario used by the witnesses -/

def wAirports : String → Bool := fun s => s == "LAX" || s == "JFK"

def wProv : Provider := ⟨fun _ => none, fun _ => none⟩

def wReqBad : Req :=
  { origin := "XX", dest := "LAX", date := "2023-05-01", return_date := "2023-05-02",
    num_adults := some 1, wait_time := none, page := 1 }

theorem invalid_request_rejected_before_io_witness :
    (¬(wReqBad.origin.length = 3 ∧ wReqBad.dest.length = 3 ∧
        wAirports wReqBad.origin = true ∧ wAirports wReqBad.dest = true) ∨
      pyStrLt wReqBad.return_date wReqBad.date = true) ∧
    ((∃ m, (get_flights wAirports wProv [] wReqBad).result = .error (.http 400 m)) ∧
     (get_flights wAirports wProv [] wReqBad).trace = [] ∧
     (get_flights wAirports wProv [] wReqBad).cache = []) :=
  ⟨Or.inl (by decide),
   invalid_request_rejected_before_io wAirports wProv [] wReqBad (Or.inl (by decide))⟩

/-! ## Claims C2 and C9 (wait-time handling) -/

/-- C2 counterexample: a caller-supplied wait_time of 10 is forwarded to the
provider as 10; it is not raised to the 500 floor, refuting the claim that
every forwarded value lies in [500, 5000]. -/
theorem wait_time_floor_counterexample :
    forwardedWaitTime (some 10) = 10 ∧ ¬ forwardedWaitTime (some 10) = 500 := by
  decide

/-- C2 (amended): a caller-supplied wait_time is forwarded as
`min wait_time MAX_WAIT`: values above 5000 are lowered to 5000, values at
or below 5000 pass through unchanged (the 500 floor is not applied to
supplied values), and no value is ever an error. -/
theorem wait_time_clamped_above_only (w : Int) :
    (MAX_WAIT < w → forwardedWaitTime (some w) = MAX_WAIT) ∧
    (w ≤ MAX_WAIT → forwardedWaitTime (some w) = w) ∧
    ∀ (A : String → Bool) (prov : Provider) (c : Cache) (req : Req) (p : SearchParams),
      req.wait_time = some w →
      Effect.provSearch p ∈ (get_flights A prov c req).trace →
      p.waitTime = min w MAX_WAIT := by
  refine ⟨?_, ?_, ?_⟩
  · intro h
    simp only [forwardedWaitTime]
    omega
  · intro h
    simp only [forwardedWaitTime]
    omega
  · intro A prov c req p hw hmem
    have hp := (get_flights_shape A prov c req).2 p hmem
    rw [hp]
    simp [searchParamsOf, forwardedWaitTime, hw]

def wReq50k : Req :=
  { origin := "LAX", dest := "JFK", date := "2023-05-01", return_date := "2023-05-02",
    num_adults := some 1, wait_time := some 50000, page := 1 }

theorem wait_time_clamped_above_only_witness :
    (MAX_WAIT < 50000 ∧ forwardedWaitTime (some 50000) = MAX_WAIT) ∧
    (wReq50k.wait_time = some 50000 ∧
     Effect.provSearch (searchParamsOf wReq50k) ∈
       (get_flights wAirports wProv [] wReq50k).trace ∧
     (searchParamsOf wReq50k).waitTime = min 50000 MAX_WAIT) :=
  ⟨⟨by decide, (wait_time_clamped_above_only 50000).1 (by decide)⟩,
   rfl, by decide,
   (wait_time_clamped_above_only 50000).2.2 wAirports wProv [] wReq50k
     (searchParamsOf wReq50k) rfl (by decide)⟩

/-- C9: when the caller omits wait_time the forwarded value is
MIN_WAIT = 500, and for a present wait_time the forwarded value is
`min wait_time MAX_WAIT`, which never involves the 500 floor. -/
theorem absent_wait_time_forwards_min_wait :
    forwardedWaitTime none = MIN_WAIT ∧ MIN_WAIT = 500 ∧
    (∀ w, forwardedWaitTime (some w) = min w MAX_WAIT) ∧
    ∀ (A : String → Bool) (prov : Provider) (c : Cache) (req : Req) (p : SearchParams),
      req.wait_time = none →
      Effect.provSearch p ∈ (get_flights A prov c req).trace →
      p.waitTime = MIN_WAIT := by
  refine ⟨rfl, rfl, fun w => rfl, ?_⟩
  intro A prov c req p hw hmem
  have hp := (get_flights_shape A prov c req).2 p hmem
  rw [hp]
  simp [searchParamsOf, forwardedWaitTime, hw]

def wReqNone : Req :=
  { origin := "LAX", dest := "JFK", date := "2023-05-01", return_date := "2023-05-02",
    num_adults := some 1, wait_time := none, page := 1 }

theorem absent_wait_time_forwards_min_wait_witness :
    wReqNone.wait_time = none ∧
    Effect.provSearch (searchParamsOf wReqNone) ∈
      (get_flights wAirports wProv [] wReqNone).trace ∧
    (searchParamsOf wReqNone).waitTime = MIN_WAIT :=
  ⟨rfl, by decide,
   absent_wait_time_forwards_min_wait.2.2.2 wAirports wProv [] wReqNone
     (searchParamsOf wReqNone) rfl (by decide)⟩

/-! ## Claim C6 (stable descending sort) -/

/-- C6: the sort applied to the scored summary list (src/main.py lines
279-283) orders descending by layover score and is stable: for every input,
the output is pairwise non-increasing in `sortKey`, the elements with any
fixed score keep their relative input order, and on the claim's instance
[A:5, B:5, C:3] the output is [A, B, C]. -/
theorem sort_descending_stable :
    (∀ l : List Flight,
      ((sortDescBy sortKey l).Pairwise fun x y => sortKey y ≤ sortKey x) ∧
      ∀ k : Int, (sortDescBy sortKey l).filter (fun x => sortKey x == k) =
        l.filter (fun x => sortKey x == k)) ∧
    sortDescBy sortKey [⟨"A", none, some 5⟩, ⟨"B", none, some 5⟩, ⟨"C", none, some 3⟩] =
      [⟨"A", none, some 5⟩, ⟨"B", none, some 5⟩, ⟨"C", none, some 3⟩] :=
  ⟨fun l => ⟨pairwise_sortDescBy sortKey l, fun k => filter_sortDescBy sortKey l k⟩,
   by decide⟩

/-! ## Claims C7 and C10 (pagination) -/

/-- C7: for every page `p ≥ 1`, the returned page is the slice
`[(p-1)*5, (p-1)*5+5)` of the sorted list, and a start at or past the end
of the list yields an empty page rather than an error. -/
theorem pagination_slice (l : List Flight) (p : Int) (hp : 1 ≤ p) :
    pageSlice l p = (l.drop ((p - 1) * 5).toNat).take 5 ∧
    (l.length ≤ ((p - 1) * 5).toNat → pageSlice l p = []) := by
  have h1 : pageSlice l p =
      (l.drop (((p - 1) * PAGE_SIZE).toNat)).take
        (((p - 1) * PAGE_SIZE + PAGE_SIZE - (p - 1) * PAGE_SIZE).toNat) := by
    apply pySlice_nonneg
    · simp only [PAGE_SIZE]
      nlinarith
    · simp only [PAGE_SIZE]
      omega
  simp only [PAGE_SIZE] at h1
  have h2 : ((p - 1) * 5 + 5 - (p - 1) * 5 : Int).toNat = 5 := by omega
  rw [h2] at h1
  refine ⟨h1, fun hlen => ?_⟩
  rw [h1, List.drop_eq_nil_iff.mpr hlen]
  rfl

/-- A concrete 12-summary sorted list used by the pagination witnesses. -/
def flights12 : List Flight :=
  (List.range 12).map fun i => ⟨"", none, some (12 - (i : Int))⟩

theorem pagination_slice_witness :
    (1 : Int) ≤ 3 ∧
    (pageSlice flights12 3 = (flights12.drop (((3 : Int) - 1) * 5).toNat).take 5 ∧
     (flights12.length ≤ (((3 : Int) - 1) * 5).toNat → pageSlice flights12 3 = [])) :=
  ⟨by decide, pagination_slice flights12 3 (by decide)⟩

/-- C10: with the 1-indexed slice formula, `page = 0` always yields an empty
list, while `page = -1` on a 12-summary list slices `data[-10:-5]`, i.e. the
five summaries at indices 2 through 6 — a non-empty mid-list slice rather
than an empty page or an error. -/
theorem negative_page_slices :
    (∀ l : List Flight, pageSlice l 0 = []) ∧
    pageSlice flights12 (-1) = (flights12.drop 2).take 5 ∧
    (pageSlice flights12 (-1)).length = 5 := by
  refine ⟨?_, by decide, by decide⟩
  intro l
  show pySlice l ((0 - 1) * PAGE_SIZE) ((0 - 1) * PAGE_SIZE + PAGE_SIZE) = []
  have h1 : ((0 - 1) * PAGE_SIZE : Int) = -5 := by decide
  have h2 : ((0 - 1) * PAGE_SIZE + PAGE_SIZE : Int) = 0 := by decide
  rw [h2, h1]
  unfold pySlice normIdx
  rw [if_neg (by omega)]
  simp

/-! ## Claim C1 (per-item detail failure aborts the whole request) -/

def c1Airports : String → Bool := fun s => s == "AAA" || s == "BBB"

def c1Flight (i : String) : Flight :=
  ⟨i, some [⟨some [⟨"CCC", 0, 0⟩, ⟨"CCC", 1, 3⟩]⟩], none⟩

/-- A provider whose search returns three valid itineraries and whose detail
call raises (ProviderError / malformed payload) for itinerary "2" only. -/
def c1Prov : Provider :=
  ⟨fun _ => some ⟨true, some [c1Flight "1", c1Flight "2", c1Flight "3"]⟩,
   fun p => if p.itineraryId == "2" then none else some ⟨true, p.itineraryId⟩⟩

def c1Req : Req :=
  { origin := "AAA", dest := "BBB", date := "2023-05-01", return_date := "2023-05-02",
    num_adults := some 1, wait_time := none, page := 1 }

/-- C1: on a page of three itineraries where only item 2's detail fetch
raises, `asyncio.gather` (default `return_exceptions=False`) propagates the
exception, so the request aborts with an unhandled error instead of
returning the two remaining details — the code does not implement the
claimed partial-failure semantics. -/
theorem detail_failure_aborts_request :
    (get_flights c1Airports c1Prov [] c1Req).result = Except.error HErr.internal :=
  rfl

/-! ## The fan-out success lemma

`expectedDetail` is the detail that the fan-out should produce for one
summary, judged against the cache state at fan-out entry and the provider
oracle; the invariant lemmas below show each loop body produces exactly it,
for any completion schedule. -/

/-- The per-summary outcome determined by the entry cache and the oracle:
a cached detail payload on hit, otherwise the oracle's answer (with `none`
for a raising call or a non-detail payload under the key). -/
def expectedDetail (prov : Provider) (req : Req) (c0 : Cache) (f : Flight) :
    Option FlightDetailResponse :=
  match httpcache.get c0 (detailCacheKey req f.id) with
  | some (.detailP d) => some d
  | some (.searchP _) => none
  | none => prov.detail (detailParamsOf req f.id)

/-- Intermediate caches during the fan-out differ from the entry cache only
by detail entries that the oracle answered with a status-true payload for
keys that were absent at entry. -/
def Coherent (prov : Provider) (req : Req) (c0 c : Cache) : Prop :=
  ∀ k, httpcache.get c k = httpcache.get c0 k ∨
    (httpcache.get c0 k = none ∧ ∃ id d,
      k = detailCacheKey req id ∧
      prov.detail (detailParamsOf req id) = some d ∧
      d.status = true ∧ httpcache.get c k = some (.detailP d))

theorem expectedDetail_id (prov : Provider) (req : Req) (c0 : Cache)
    (f g : Flight) (h : f.id = g.id) :
    expectedDetail prov req c0 f = expectedDetail prov req c0 g := by
  unfold expectedDetail detailCacheKey detailParamsOf
  rw [h]

theorem detailCacheKey_inj (req : Req) (a b : String)
    (h : detailCacheKey req a = detailCacheKey req b) : a = b := by
  simpa [detailCacheKey] using h

theorem loop_success (A : String → Bool) (prov : Provider) (req : Req)
    (pageData : List Flight) (c0 : Cache) (st : LoopState) (i : Nat) (f : Flight)
    (d : FlightDetailResponse)
    (hv : validate_iata A req.origin req.dest = .ok ())
    (hc : Coherent prov req c0 st.cache)
    (hi : pageData[i]? = some f)
    (hexp : expectedDetail prov req c0 f = some d) :
    ∃ st2, loop A prov req pageData st i = (none, st2) ∧
      (st2.cache = st.cache ∨
        (httpcache.get c0 (detailCacheKey req f.id) = none ∧ d.status = true ∧
          st2.cache = httpcache.set st.cache (detailCacheKey req f.id) (Payload.detailP d))) ∧
      (d.status = true →
        httpcache.get st2.cache (detailCacheKey req f.id) = some (.detailP d)) ∧
      st2.details = st.details.set i (some d) ∧
      ∃ tr, st2.trace = st.trace ++ tr ∧
        (∀ p, Effect.provDetail p ∈ tr →
          httpcache.get c0 (detailCacheKey req f.id) = none) := by
  cases hlook : httpcache.get st.cache (detailCacheKey req f.id) with
  | some v =>
    cases v with
    | searchP r =>
      exfalso
      rcases hc (detailCacheKey req f.id) with hck | ⟨hc0, id, d1, hkid, hdet1, hst1, hck⟩
      · have h3 : httpcache.get c0 (detailCacheKey req f.id) = some (.searchP r) :=
          hck.symm.trans hlook
        unfold expectedDetail at hexp
        rw [h3] at hexp
        cases hexp
      · rw [hlook] at hck
        simp at hck
    | detailP d2 =>
      have hd2 : d2 = d := by
        rcases hc (detailCacheKey req f.id) with hck | ⟨hc0, id, d1, hkid, hdet1, hst1, hck⟩
        · have h3 : httpcache.get c0 (detailCacheKey req f.id) = some (.detailP d2) :=
            hck.symm.trans hlook
          unfold expectedDetail at hexp
          rw [h3] at hexp
          exact Option.some.inj hexp
        · rw [hlook] at hck
          have hd1 : d2 = d1 := by simpa using hck
          have hid : f.id = id := detailCacheKey_inj req f.id id hkid
          unfold expectedDetail at hexp
          rw [hc0, hid, hdet1] at hexp
          rw [hd1]
          exact Option.some.inj hexp
      subst hd2
      refine ⟨{ st with details := st.details.set i (some d2),
                        trace := st.trace ++ [Effect.cacheGet (detailCacheKey req f.id)] },
        by simp only [loop, hi, hlook], Or.inl rfl, fun _ => hlook, rfl,
        [Effect.cacheGet (detailCacheKey req f.id)], rfl, ?_⟩
      intro p hp
      simp at hp
  | none =>
    have hc0 : httpcache.get c0 (detailCacheKey req f.id) = none := by
      rcases hc (detailCacheKey req f.id) with hck | ⟨hc0, id, d1, hkid, hdet1, hst1, hck⟩
      · exact hck.symm.trans hlook
      · rw [hlook] at hck
        cases hck
    have hdetail : prov.detail (detailParamsOf req f.id) = some d := by
      unfold expectedDetail at hexp
      rw [hc0] at hexp
      exact hexp
    have hgfd : get_flight_details A prov (detailParamsOf req f.id) =
        (.ok d, [.provDetail (detailParamsOf req f.id)]) := by
      unfold get_flight_details
      have ho : (detailParamsOf req f.id).origin = req.origin := rfl
      have hde : (detailParamsOf req f.id).dest = req.dest := rfl
      rw [ho, hde, hv, hdetail]
    by_cases hds : d.status = true
    · refine ⟨{ cache := httpcache.set st.cache (detailCacheKey req f.id) (.detailP d),
                 details := st.details.set i (some d),
                 trace := st.trace ++ [Effect.cacheGet (detailCacheKey req f.id)]
                   ++ [Effect.provDetail (detailParamsOf req f.id)]
                   ++ [Effect.cacheSet (detailCacheKey req f.id) (.detailP d)] },
        by simp only [loop, hi, hlook, hgfd, hds, if_true],
        Or.inr ⟨hc0, hds, rfl⟩,
        fun _ => httpcache_get_set_eq st.cache (detailCacheKey req f.id) (.detailP d),
        rfl,
        [Effect.cacheGet (detailCacheKey req f.id)]
          ++ [Effect.provDetail (detailParamsOf req f.id)]
          ++ [Effect.cacheSet (detailCacheKey req f.id) (.detailP d)],
        by simp, fun p hp => hc0⟩
    · refine ⟨{ st with details := st.details.set i (some d),
                        trace := st.trace ++ [Effect.cacheGet (detailCacheKey req f.id)]
                          ++ [Effect.provDetail (detailParamsOf req f.id)] },
        by simp only [loop, hi, hlook, hgfd, hds, if_false, Bool.false_eq_true],
        Or.inl rfl, fun h => absurd h hds, rfl,
        [Effect.cacheGet (detailCacheKey req f.id)]
          ++ [Effect.provDetail (detailParamsOf req f.id)],
        by simp, fun p hp => hc0⟩

theorem runLoops_inv (A : String → Bool) (prov : Provider) (req : Req)
    (pageData : List Flight) (c0 : Cache) (dfun : Nat → FlightDetailResponse)
    (hv : validate_iata A req.origin req.dest = .ok ())
    (hexp : ∀ i f, pageData[i]? = some f → expectedDetail prov req c0 f = some (dfun i))
    (S : List Nat) (st : LoopState) (dn : Nat → Bool) :
    (∀ i ∈ S, i < pageData.length) →
    Coherent prov req c0 st.cache →
    st.details.length = pageData.length →
    (∀ i, i < pageData.length →
      st.details[i]? = some (if dn i then some (dfun i) else none)) →
    (∀ i f, pageData[i]? = some f → dn i = true → (dfun i).status = true →
      httpcache.get st.cache (detailCacheKey req f.id) = some (.detailP (dfun i))) →
    ∃ st2, runLoops A prov req pageData S st = (none, st2) ∧
      Coherent prov req c0 st2.cache ∧
      st2.details.length = pageData.length ∧
      (∀ i, i < pageData.length →
        st2.details[i]? = some (if dn i || S.contains i then some (dfun i) else none)) ∧
      (∀ i f, pageData[i]? = some f → (dn i || S.contains i) = true →
        (dfun i).status = true →
        httpcache.get st2.cache (detailCacheKey req f.id) = some (.detailP (dfun i))) ∧
      ∃ tr, st2.trace = st.trace ++ tr ∧
        ∀ p, Effect.provDetail p ∈ tr →
          ∃ (j : Nat) (g : Flight), pageData[j]? = some g ∧
            httpcache.get c0 (detailCacheKey req g.id) = none := by
  induction S generalizing st dn with
  | nil =>
    intro hS hc hlen hdet hstored
    refine ⟨st, rfl, hc, hlen, ?_, ?_, [], by simp, by simp⟩
    · intro i hi
      simpa using hdet i hi
    · intro i f hf hd hs
      simp only [List.contains_nil, Bool.or_false] at hd
      exact hstored i f hf hd hs
  | cons j S ih =>
    intro hS hc hlen hdet hstored
    have hj : j < pageData.length := hS j (List.mem_cons_self j S)
    obtain ⟨f, hf⟩ : ∃ f, pageData[j]? = some f := ⟨_, List.getElem?_eq_getElem hj⟩
    obtain ⟨st2, hloop, hcache2, hpresent2, hdetails2, tr1, htr1, hprov1⟩ :=
      loop_success A prov req pageData c0 st j f (dfun j) hv hc hf (hexp j f hf)
    have hc2 : Coherent prov req c0 st2.cache := by
      rcases hcache2 with h | ⟨hck0, hds, hset⟩
      · rw [h]
        exact hc
      · intro k
        by_cases hk : k = detailCacheKey req f.id
        · subst hk
          right
          refine ⟨hck0, f.id, dfun j, rfl, ?_, hds, ?_⟩
          · have h1 := hexp j f hf
            unfold expectedDetail at h1
            rw [hck0] at h1
            exact h1
          · rw [hset]
            exact httpcache_get_set_eq _ _ _
        · rw [hset, httpcache_get_set_ne _ _ _ _ (fun he => hk he.symm)]
          exact hc k
    have hlen2 : st2.details.length = pageData.length := by
      rw [hdetails2, List.length_set]
      exact hlen
    have hdet2 : ∀ i, i < pageData.length →
        st2.details[i]? = some (if dn i || (i == j) then some (dfun i) else none) := by
      intro i hi
      rw [hdetails2]
      by_cases hij : i = j
      · subst hij
        rw [List.getElem?_set_self (by omega)]
        simp
      · rw [List.getElem?_set_ne (fun he => hij he.symm)]
        rw [hdet i hi]
        simp [hij]
    have hstored2 : ∀ i g, pageData[i]? = some g → (dn i || (i == j)) = true →
        (dfun i).status = true →
        httpcache.get st2.cache (detailCacheKey req g.id) = some (.detailP (dfun i)) := by
      intro i g hg hd hs
      have hd2 : dn i = true ∨ i = j := by simpa using hd
      rcases hd2 with h1 | h1
      · rcases hcache2 with hsame | ⟨hck0, hds, hset⟩
        · rw [hsame]
          exact hstored i g hg h1 hs
        · by_cases hkey : detailCacheKey req g.id = detailCacheKey req f.id
          · have hid : g.id = f.id := detailCacheKey_inj req _ _ hkey
            have hdd : dfun i = dfun j := by
              have h1e := hexp i g hg
              have h2e := hexp j f hf
              rw [expectedDetail_id prov req c0 g f hid] at h1e
              rw [h1e] at h2e
              exact Option.some.inj h2e
            rw [hset, hkey, httpcache_get_set_eq, hdd]
          · rw [hset, httpcache_get_set_ne _ _ _ _ (fun he => hkey he.symm)]
            exact hstored i g hg h1 hs
      · subst h1
        have hgf : g = f := by
          rw [hg] at hf
          exact Option.some.inj hf
        rw [hgf]
        exact hpresent2 hs
    obtain ⟨st3, hrun3, hc3, hlen3, hdet3, hstored3, tr2, htr2, hprov2⟩ :=
      ih st2 (fun i => dn i || (i == j)) (fun i hi => hS i (List.mem_cons_of_mem j hi))
        hc2 hlen2 hdet2 hstored2
    have hrun : runLoops A prov req pageData (j :: S) st =
        runLoops A prov req pageData S st2 := by
      show (match loop A prov req pageData st j with
        | (some e, st2) => (some e, st2)
        | (none, st2) => runLoops A prov req pageData S st2) =
          runLoops A prov req pageData S st2
      rw [hloop]
    have hcond : ∀ i, ((dn i || (i == j)) || S.contains i) = (dn i || (j :: S).contains i) := by
      intro i
      simp only [List.contains_cons, Bool.or_assoc]
    refine ⟨st3, hrun.trans hrun3, hc3, hlen3, ?_, ?_, tr1 ++ tr2, ?_, ?_⟩
    · intro i hi
      rw [hdet3 i hi, hcond i]
    · intro i g hg hd hs
      refine hstored3 i g hg ?_ hs
      rw [hcond i]
      exact hd
    · rw [htr2, htr1, List.append_assoc]
    · intro p hp
      rcases List.mem_append.mp hp with hp | hp
      · exact ⟨j, f, hf, hprov1 p hp⟩
      · exact hprov2 p hp

theorem list_eq_map_range {β : Type} (l : List β) (n : Nat) (g : Nat → β)
    (hlen : l.length = n) (h : ∀ i, i < n → l[i]? = some (g i)) :
    l = (List.range n).map g := by
  apply List.ext_getElem?
  intro i
  by_cases hi : i < n
  · rw [h i hi, List.getElem?_map, List.getElem?_range hi]
    rfl
  · rw [List.getElem?_eq_none_iff.mpr (by omega),
      List.getElem?_eq_none_iff.mpr (by simp; omega)]

/-! ## Claim C5 (index-aligned fan-out) -/

/-- C5: running the gathered fan-out bodies in any completion order (any
permutation `sched` of the page's indices) succeeds when every per-item
resolution succeeds, fills every slot of the `details` array, and the entry
at position `i` is exactly the detail determined by summary `i` and the
entry cache — the result is index-aligned with the page and independent of
the schedule (the right-hand side does not mention `sched`). -/
theorem fanout_index_aligned (A : String → Bool) (prov : Provider) (req : Req)
    (pageData : List Flight) (c0 : Cache) (sched : List Nat)
    (dfun : Nat → FlightDetailResponse)
    (hv : validate_iata A req.origin req.dest = .ok ())
    (hperm : sched.Perm (List.range pageData.length))
    (hexp : ∀ i f, pageData[i]? = some f → expectedDetail prov req c0 f = some (dfun i)) :
    ∃ st2, runLoops A prov req pageData sched
        ⟨c0, List.replicate pageData.length none, []⟩ = (none, st2) ∧
      st2.details = (List.range pageData.length).map (fun i => some (dfun i)) := by
  have hS : ∀ i ∈ sched, i < pageData.length := by
    intro i hi
    have h2 := hperm.mem_iff.mp hi
    simpa using h2
  obtain ⟨st2, hrun, _, hlen2, hdet2, _, _⟩ :=
    runLoops_inv A prov req pageData c0 dfun hv hexp sched
      ⟨c0, List.replicate pageData.length none, []⟩ (fun _ => false) hS
      (fun k => Or.inl rfl) (by simp)
      (by intro i hi; simp [List.getElem?_replicate, hi])
      (by intro i f hf hd hs; cases hd)
  refine ⟨st2, hrun, ?_⟩
  apply list_eq_map_range _ _ _ hlen2
  intro i hi
  have hci : sched.contains i = true := by
    have hmem : i ∈ sched := hperm.mem_iff.mpr (by simpa using hi)
    simpa [List.elem_iff] using hmem
  rw [hdet2 i hi, hci]
  simp

def w5Page : List Flight := [⟨"a", none, none⟩, ⟨"b", none, none⟩, ⟨"c", none, none⟩]

def w5Prov : Provider := ⟨fun _ => none, fun p => some ⟨true, p.itineraryId⟩⟩

def w5d : Nat → FlightDetailResponse := fun i => ⟨true, ["a", "b", "c"].getD i ""⟩

theorem fanout_index_aligned_witness :
    validate_iata wAirports wReqNone.origin wReqNone.dest = .ok () ∧
    ([2, 0, 1] : List Nat).Perm (List.range w5Page.length) ∧
    ∃ st2, runLoops wAirports w5Prov wReqNone w5Page [2, 0, 1]
        ⟨[], List.replicate w5Page.length none, []⟩ = (none, st2) ∧
      st2.details = (List.range w5Page.length).map (fun i => some (w5d i)) := by
  refine ⟨rfl, by decide, ?_⟩
  apply fanout_index_aligned wAirports w5Prov wReqNone w5Page [] [2, 0, 1] w5d rfl (by decide)
  intro i f hf
  match i with
  | 0 =>
    have hf2 : f = ⟨"a", none, none⟩ := by
      have h0 : ({ id := "a", legs := none, layover_hours := none } : Flight) = f := by
        simpa [w5Page] using hf
      exact h0.symm
    subst hf2
    decide
  | 1 =>
    have hf2 : f = ⟨"b", none, none⟩ := by
      have h0 : ({ id := "b", legs := none, layover_hours := none } : Flight) = f := by
        simpa [w5Page] using hf
      exact h0.symm
    subst hf2
    decide
  | 2 =>
    have hf2 : f = ⟨"c", none, none⟩ := by
      have h0 : ({ id := "c", legs := none, layover_hours := none } : Flight) = f := by
        simpa [w5Page] using hf
      exact h0.symm
    subst hf2
    decide
  | n + 3 => simp [w5Page] at hf

/-! ## Claim C4 (cache idempotence) -/

/-- The processed search response that `fetchSearch` produces from a raw
provider payload (filter, score, stable sort). -/
def srOf (r : FlightApiResponse) (fl : List Flight) : FlightApiResponse :=
  { status := r.status,
    data := some (sortDescBy sortKey (calculate_layover_scores (remove_invalid_flights fl))) }

/-- The oracle answer for page index `i`, with a dummy fallback outside the
page (used only as a total representative of the per-index details). -/
def oracleDetail (prov : Provider) (req : Req) (pageData : List Flight) (i : Nat) :
    FlightDetailResponse :=
  match pageData[i]? with
  | some f => (prov.detail (detailParamsOf req f.id)).getD ⟨false, ""⟩
  | none => ⟨false, ""⟩

theorem search_key_ne_detail (req : Req) (id : String) :
    search_cache_key req ≠ detailCacheKey req id := by
  simp [search_cache_key, detailCacheKey]

theorem afterSearch_all_success (A : String → Bool) (prov : Provider) (req : Req)
    (c1 : Cache) (sr : FlightApiResponse) (fl2 : List Flight) (tr : List Effect)
    (dfun : Nat → FlightDetailResponse)
    (hv : validate_iata A req.origin req.dest = .ok ())
    (hdata : sr.data = some fl2)
    (hexp : ∀ i f, (pageSlice fl2 req.page)[i]? = some f →
      expectedDetail prov req c1 f = some (dfun i))
    (hstat : ∀ i f, (pageSlice fl2 req.page)[i]? = some f → (dfun i).status = true) :
    ∃ st2 : LoopState, afterSearch A prov c1 req sr tr =
        ⟨.ok ((List.range (pageSlice fl2 req.page).length).map dfun), st2.cache, st2.trace⟩ ∧
      Coherent prov req c1 st2.cache ∧
      (∀ i f, (pageSlice fl2 req.page)[i]? = some f →
        httpcache.get st2.cache (detailCacheKey req f.id) = some (.detailP (dfun i))) ∧
      ∃ tr2, st2.trace = tr ++ tr2 ∧
        (∀ p, Effect.provDetail p ∈ tr2 →
          ∃ (j : Nat) (g : Flight), (pageSlice fl2 req.page)[j]? = some g ∧
            httpcache.get c1 (detailCacheKey req g.id) = none) ∧
        ∀ p, Effect.provSearch p ∉ tr2 := by
  obtain ⟨st2, hrun, hc2, hlen2, hdet2, hstored2, trA, htrA, hprovA⟩ :=
    runLoops_inv A prov req (pageSlice fl2 req.page) c1 dfun hv hexp
      (List.range (pageSlice fl2 req.page).length)
      ⟨c1, List.replicate (pageSlice fl2 req.page).length none, tr⟩ (fun _ => false)
      (by intro i hi; simpa using hi)
      (fun k => Or.inl rfl) (by simp)
      (by intro i hi; simp [List.getElem?_replicate, hi])
      (by intro i f hf hd hs; cases hd)
  have hdetails : st2.details =
      (List.range (pageSlice fl2 req.page).length).map (fun i => some (dfun i)) := by
    apply list_eq_map_range _ _ _ hlen2
    intro i hi
    have hci : (List.range (pageSlice fl2 req.page).length).contains i = true := by
      simpa [List.elem_iff] using hi
    rw [hdet2 i hi, hci]
    simp
  have hshape : ∃ trB, st2.trace =
      (⟨c1, List.replicate (pageSlice fl2 req.page).length none, tr⟩ : LoopState).trace ++ trB ∧
      ∀ e ∈ trB, benignEffect e := by
    have h0 := (runLoops_shape A prov req (pageSlice fl2 req.page)
      (List.range (pageSlice fl2 req.page).length)
      ⟨c1, List.replicate (pageSlice fl2 req.page).length none, tr⟩).1
    rw [hrun] at h0
    exact h0
  obtain ⟨trB, htrB, hbB⟩ := hshape
  have htrAB : trA = trB := by
    have h3 : tr ++ trA = tr ++ trB := by
      rw [← htrA, ← htrB]
    exact List.append_cancel_left h3
  refine ⟨st2, ?_, hc2, ?_, trA, htrA, hprovA, ?_⟩
  · simp only [afterSearch, hdata]
    rw [hrun]
    simp only [set_popularity_for_flights, hdetails]
    rw [List.filterMap_map]
    congr 1
    exact congrArg Except.ok
      (List.filterMap_eq_map_iff_forall_eq_some.mpr fun x _ => rfl)
  · intro i f hf
    have hi : i < (pageSlice fl2 req.page).length := by
      by_contra hc
      rw [List.getElem?_eq_none_iff.mpr (by omega)] at hf
      cases hf
    have hci : (List.range (pageSlice fl2 req.page).length).contains i = true := by
      simpa [List.elem_iff] using hi
    refine hstored2 i f hf ?_ (hstat i f hf)
    simpa using hi
  · intro p hp
    rw [htrAB] at hp
    exact benign_not_provSearch (hbB _ hp)

/-- C4: calling the flight-search operation twice with identical parameters,
where the first call (from an empty cache) succeeds with a status-true
search response and status-true details, issues no provider call at all
during the second invocation and returns the identical result list. -/
theorem warm_cache_idempotent (A : String → Bool) (prov : Provider) (req : Req)
    (r : FlightApiResponse) (fl : List Flight)
    (hv : validate_iata A req.origin req.dest = .ok ())
    (hdate : pyStrLt req.return_date req.date = false)
    (hs : prov.search (searchParamsOf req) = some r)
    (hst : r.status = true)
    (hdata : r.data = some fl)
    (hdet : ∀ p : DetailParams, ∃ d, prov.detail p = some d ∧ d.status = true) :
    ∃ out c1 tr1 c2 tr2,
      get_flights A prov [] req = ⟨.ok out, c1, tr1⟩ ∧
      get_flights A prov c1 req = ⟨.ok out, c2, tr2⟩ ∧
      (∀ p, Effect.provSearch p ∉ tr2) ∧
      (∀ p, Effect.provDetail p ∉ tr2) := by
  have hfs : fetchSearch prov req =
      (.ok (srOf r fl), [.provSearch (searchParamsOf req)]) := by
    simp [fetchSearch, hs, hdata, srOf]
  have hsst : (srOf r fl).status = true := by
    simp [srOf, hst]
  have hstat1 : ∀ i f,
      (pageSlice (sortDescBy sortKey (calculate_layover_scores
        (remove_invalid_flights fl))) req.page)[i]? = some f →
      (oracleDetail prov req (pageSlice (sortDescBy sortKey (calculate_layover_scores
        (remove_invalid_flights fl))) req.page) i).status = true := by
    intro i f hf
    obtain ⟨d, hd, hds⟩ := hdet (detailParamsOf req f.id)
    simp [oracleDetail, hf, hd, hds]
  have hexp1 : ∀ i f,
      (pageSlice (sortDescBy sortKey (calculate_layover_scores
        (remove_invalid_flights fl))) req.page)[i]? = some f →
      expectedDetail prov req
        (httpcache.set [] (search_cache_key req) (.searchP (srOf r fl))) f =
      some (oracleDetail prov req (pageSlice (sortDescBy sortKey (calculate_layover_scores
        (remove_invalid_flights fl))) req.page) i) := by
    intro i f hf
    obtain ⟨d, hd, hds⟩ := hdet (detailParamsOf req f.id)
    have hkey : httpcache.get
        (httpcache.set [] (search_cache_key req) (.searchP (srOf r fl)))
        (detailCacheKey req f.id) = none := by
      rw [httpcache_get_set_ne _ _ _ _ (search_key_ne_detail req f.id)]
      rfl
    unfold expectedDetail
    rw [hkey, hd]
    simp [oracleDetail, hf, hd]
  obtain ⟨st2, hafter1, hc2, hpresent2, tr2a, htr2a, hprovA, hpsA⟩ :=
    afterSearch_all_success A prov req
      (httpcache.set [] (search_cache_key req) (.searchP (srOf r fl))) (srOf r fl)
      (sortDescBy sortKey (calculate_layover_scores (remove_invalid_flights fl)))
      (.cacheGet (search_cache_key req) :: [.provSearch (searchParamsOf req)]
        ++ [.cacheSet (search_cache_key req) (.searchP (srOf r fl))])
      (oracleDetail prov req (pageSlice (sortDescBy sortKey (calculate_layover_scores
        (remove_invalid_flights fl))) req.page))
      hv rfl hexp1 hstat1
  have hskey2 : httpcache.get st2.cache (search_cache_key req) =
      some (.searchP (srOf r fl)) := by
    rcases hc2 (search_cache_key req) with h | ⟨h0, id, d, hk, hdet1, hst1, hck⟩
    · rw [h]
      exact httpcache_get_set_eq _ _ _
    · exact absurd hk (search_key_ne_detail req id)
  have hexp2 : ∀ i f,
      (pageSlice (sortDescBy sortKey (calculate_layover_scores
        (remove_invalid_flights fl))) req.page)[i]? = some f →
      expectedDetail prov req st2.cache f =
      some (oracleDetail prov req (pageSlice (sortDescBy sortKey (calculate_layover_scores
        (remove_invalid_flights fl))) req.page) i) := by
    intro i f hf
    unfold expectedDetail
    rw [hpresent2 i f hf]
  obtain ⟨st3, hafter2, hc3, hpresent3, tr2b, htr2b, hprovB, hpsB⟩ :=
    afterSearch_all_success A prov req st2.cache (srOf r fl)
      (sortDescBy sortKey (calculate_layover_scores (remove_invalid_flights fl)))
      [.cacheGet (search_cache_key req)]
      (oracleDetail prov req (pageSlice (sortDescBy sortKey (calculate_layover_scores
        (remove_invalid_flights fl))) req.page))
      hv rfl hexp2 hstat1
  refine ⟨(List.range (pageSlice (sortDescBy sortKey (calculate_layover_scores
      (remove_invalid_flights fl))) req.page).length).map
        (oracleDetail prov req (pageSlice (sortDescBy sortKey (calculate_layover_scores
          (remove_invalid_flights fl))) req.page)),
    st2.cache, st2.trace, st3.cache, st3.trace, ?_, ?_, ?_, ?_⟩
  · have h1 : get_flights A prov [] req =
        afterSearch A prov
          (httpcache.set [] (search_cache_key req) (.searchP (srOf r fl))) req (srOf r fl)
          (.cacheGet (search_cache_key req) :: [.provSearch (searchParamsOf req)]
            ++ [.cacheSet (search_cache_key req) (.searchP (srOf r fl))]) := by
      simp only [get_flights, hv, hdate, httpcache.get, hfs, hsst]
      norm_num
    rw [h1, hafter1]
  · have h2 : get_flights A prov st2.cache req =
        afterSearch A prov st2.cache req (srOf r fl)
          [.cacheGet (search_cache_key req)] := by
      simp only [get_flights, hv, hdate, hskey2]
      norm_num
    rw [h2, hafter2]
  · intro p hp
    rw [htr2b] at hp
    rcases List.mem_append.mp hp with h | h
    · simp at h
    · exact hpsB p h
  · intro p hp
    rw [htr2b] at hp
    rcases List.mem_append.mp hp with h | h
    · simp at h
    · obtain ⟨j, g, hg, hnone⟩ := hprovB p h
      rw [hpresent2 j g hg] at hnone
      cases hnone

/-! ## Claim C3 (failed responses are never cached) -/

theorem miss_run_calls_provider (A : String → Bool) (prov : Provider) (c2 : Cache)
    (req : Req)
    (hv : validate_iata A req.origin req.dest = .ok ())
    (hdate : pyStrLt req.return_date req.date = false)
    (hget : httpcache.get c2 (search_cache_key req) = none) :
    Effect.provSearch (searchParamsOf req) ∈ (get_flights A prov c2 req).trace := by
  rcases hfs : fetchSearch prov req with ⟨res, eff⟩
  have heff : eff = [.provSearch (searchParamsOf req)] := by
    have h0 := fetchSearch_eff prov req
    rw [hfs] at h0
    exact h0
  subst heff
  cases res with
  | error e =>
    have h1 : get_flights A prov c2 req = ⟨.error e, c2,
        .cacheGet (search_cache_key req) :: [.provSearch (searchParamsOf req)]⟩ := by
      simp only [get_flights, hv, hdate, hget, hfs]
      norm_num
    rw [h1]
    simp
  | ok sr =>
    cases hsb : sr.status with
    | true =>
      have h1 : get_flights A prov c2 req =
          afterSearch A prov (httpcache.set c2 (search_cache_key req) (.searchP sr)) req sr
            (.cacheGet (search_cache_key req) :: [.provSearch (searchParamsOf req)]
              ++ [.cacheSet (search_cache_key req) (.searchP sr)]) := by
        simp only [get_flights, hv, hdate, hget, hfs, hsb]
        norm_num
      rw [h1]
      obtain ⟨⟨tr2, htr, -⟩, -⟩ := afterSearch_shape A prov
        (httpcache.set c2 (search_cache_key req) (.searchP sr)) req sr
        (.cacheGet (search_cache_key req) :: [.provSearch (searchParamsOf req)]
          ++ [.cacheSet (search_cache_key req) (.searchP sr)])
      rw [htr]
      simp
    | false =>
      have h1 : get_flights A prov c2 req =
          afterSearch A prov c2 req sr
            (.cacheGet (search_cache_key req) :: [.provSearch (searchParamsOf req)]) := by
        simp only [get_flights, hv, hdate, hget, hfs, hsb]
        norm_num
      rw [h1]
      obtain ⟨⟨tr2, htr, -⟩, -⟩ := afterSearch_shape A prov c2 req sr
        (.cacheGet (search_cache_key req) :: [.provSearch (searchParamsOf req)])
      rw [htr]
      simp

/-- C3: the cache `set` operation is invoked only on payloads whose status
flag is true (at both the search and the detail stage: every `cacheSet` in
any run's trace carries a status-true payload); and a status-false search
response leaves no retrievable entry under its key, so an identical second
request issues the provider search call again. -/
theorem failed_responses_never_cached (A : String → Bool) (prov : Provider)
    (c0 : Cache) (req : Req) :
    (∀ k v, Effect.cacheSet k v ∈ (get_flights A prov c0 req).trace →
      payloadStatus v = true) ∧
    ∀ r : FlightApiResponse,
      validate_iata A req.origin req.dest = .ok () →
      pyStrLt req.return_date req.date = false →
      httpcache.get c0 (search_cache_key req) = none →
      prov.search (searchParamsOf req) = some r →
      r.status = false →
      httpcache.get (get_flights A prov c0 req).cache (search_cache_key req) = none ∧
      Effect.provSearch (searchParamsOf req) ∈
        (get_flights A prov (get_flights A prov c0 req).cache req).trace := by
  refine ⟨(get_flights_shape A prov c0 req).1, ?_⟩
  intro r hv hdate hget hs hst
  cases hd : r.data with
  | none =>
    have hfs : fetchSearch prov req = (.error (.http 404 "No flights found"),
        [.provSearch (searchParamsOf req)]) := by
      simp [fetchSearch, hs, hd]
    have h1 : get_flights A prov c0 req = ⟨.error (.http 404 "No flights found"), c0,
        .cacheGet (search_cache_key req) :: [.provSearch (searchParamsOf req)]⟩ := by
      simp only [get_flights, hv, hdate, hget, hfs]
      norm_num
    have hc : (get_flights A prov c0 req).cache = c0 := by
      rw [h1]
    rw [hc]
    exact ⟨hget, miss_run_calls_provider A prov c0 req hv hdate hget⟩
  | some fl =>
    have hfs : fetchSearch prov req =
        (.ok (srOf r fl), [.provSearch (searchParamsOf req)]) := by
      simp [fetchSearch, hs, hd, srOf]
    have hsst : (srOf r fl).status = false := by
      simp [srOf, hst]
    have h1 : get_flights A prov c0 req =
        afterSearch A prov c0 req (srOf r fl)
          (.cacheGet (search_cache_key req) :: [.provSearch (searchParamsOf req)]) := by
      simp only [get_flights, hv, hdate, hget, hfs, hsst]
      norm_num
    obtain ⟨-, hpres⟩ := afterSearch_shape A prov c0 req (srOf r fl)
      (.cacheGet (search_cache_key req) :: [.provSearch (searchParamsOf req)])
    have hkeep : httpcache.get (get_flights A prov c0 req).cache (search_cache_key req) = none := by
      rw [h1]
      have h2 := hpres req.origin req.dest req.date req.return_date
      rw [show CacheKey.search req.origin req.dest req.date req.return_date =
        search_cache_key req from rfl] at h2
      rw [h2]
      exact hget
    exact ⟨hkeep, miss_run_calls_provider A prov (get_flights A prov c0 req).cache req
      hv hdate hkeep⟩

def wFlight1 : Flight := ⟨"f1", some [⟨some [⟨"SFO", 0, 0⟩]⟩], none⟩

def rIdem : FlightApiResponse := ⟨true, some [wFlight1]⟩

def provIdem : Provider := ⟨fun _ => some rIdem, fun p => some ⟨true, p.itineraryId⟩⟩

theorem warm_cache_idempotent_witness :
    (validate_iata wAirports wReqNone.origin wReqNone.dest = .ok () ∧
     pyStrLt wReqNone.return_date wReqNone.date = false ∧
     provIdem.search (searchParamsOf wReqNone) = some rIdem ∧
     rIdem.status = true ∧ rIdem.data = some [wFlight1]) ∧
    ∃ out c1 tr1 c2 tr2,
      get_flights wAirports provIdem [] wReqNone = ⟨.ok out, c1, tr1⟩ ∧
      get_flights wAirports provIdem c1 wReqNone = ⟨.ok out, c2, tr2⟩ ∧
      (∀ p, Effect.provSearch p ∉ tr2) ∧
      (∀ p, Effect.provDetail p ∉ tr2) :=
  ⟨⟨rfl, rfl, rfl, rfl, rfl⟩,
   warm_cache_idempotent wAirports provIdem wReqNone rIdem [wFlight1]
     rfl rfl rfl rfl rfl (fun p => ⟨⟨true, p.itineraryId⟩, rfl, rfl⟩)⟩

def rFail : FlightApiResponse := ⟨false, some [wFlight1]⟩

def provFail : Provider := ⟨fun _ => some rFail, fun p => some ⟨true, p.itineraryId⟩⟩

theorem failed_responses_never_cached_witness :
    (validate_iata wAirports wReqNone.origin wReqNone.dest = .ok () ∧
     pyStrLt wReqNone.return_date wReqNone.date = false ∧
     httpcache.get [] (search_cache_key wReqNone) = none ∧
     provFail.search (searchParamsOf wReqNone) = some rFail ∧
     rFail.status = false) ∧
    (httpcache.get (get_flights wAirports provFail [] wReqNone).cache
        (search_cache_key wReqNone) = none ∧
     Effect.provSearch (searchParamsOf wReqNone) ∈
       (get_flights wAirports provFail
         (get_flights wAirports provFail [] wReqNone).cache wReqNone).trace) :=
  ⟨⟨rfl, rfl, rfl, rfl, rfl⟩,
   (failed_responses_never_cached wAirports provFail [] wReqNone).2 rFail
     rfl rfl rfl rfl rfl⟩
